import Mathlib

/-
Verification of the micro task-orchestration engine: a shallow embedding of
the tool registry, the plan-execute-verify-replan agent loop, the supervisor
coordination scheduler, and the MCP protocol dispatcher, with theorems about
the behaviours the specification describes.

Python dictionaries are modelled as insertion-ordered association lists
(update-in-place on existing keys, append for new keys), Python lists as Lean
lists, and the opaque inference backend as a function parameter from prompt
strings to response strings.  Real-time aspects (timestamps, wall-clock
timeouts, async suspension) are outside the embedding: per-step tool
execution under its timeout is abstracted as an oracle that reports the
outcome of each step (completed with output, timed out, or raised an error),
matching the three ways the scheduler records a step.
-/

namespace Micro

/-! ## String helpers: Python substring containment (the in operator) -/

/-- Whether the first character list occurs at the start of the second. -/
def startsWithChars : List Char → List Char → Bool
  | [], _ => true
  | _ :: _, [] => false
  | a :: as, b :: bs => a == b && startsWithChars as bs

/-- Whether the first character list occurs anywhere inside the second. -/
def hasSubChars (pat : List Char) : List Char → Bool
  | [] => pat.isEmpty
  | c :: rest => startsWithChars pat (c :: rest) || hasSubChars pat rest

/-- Python sub in s on strings. -/
def strContainsSub (s sub : String) : Bool :=
  hasSubChars sub.toList s.toList

/-- Python str.lower(), character by character (equal to String.toLower,
whose position-based recursion does not reduce definitionally). -/
def strToLower (s : String) : String :=
  ⟨s.data.map Char.toLower⟩

/-! ## Association-list model of Python dict (insertion ordered) -/

/-- Python dict lookup d.get(k). -/
def dictGet {α : Type} : List (String × α) → String → Option α
  | [], _ => none
  | (k', v) :: rest, k => if k' = k then some v else dictGet rest k

/-- Python dict assignment d[k] = v: replaces in place, appends new keys. -/
def dictSet {α : Type} : List (String × α) → String → α → List (String × α)
  | [], k, v => [(k, v)]
  | (k', v') :: rest, k, v =>
      if k' = k then (k, v) :: rest else (k', v') :: dictSet rest k v

/-- Python dict removal d.pop(k) (the mapping part). -/
def dictRemove {α : Type} : List (String × α) → String → List (String × α)
  | [], _ => []
  | (k', v') :: rest, k => if k' = k then rest else (k', v') :: dictRemove rest k

/-- Python list.remove(x): drops the first occurrence, none when x is absent
(Python raises ValueError in that case). -/
def removeFirst (x : String) : List String → Option (List String)
  | [] => none
  | y :: ys => if y = x then some ys else (removeFirst x ys).map (y :: ·)

/-! ## Domain entities (src/micro/backend/domain/entities.py) -/

inductive ExecutionStatus where
  | pending
  | planning
  | executing
  | verifying
  | completed
  | failed
  | replanning
  | cancelled
deriving DecidableEq, Repr

inductive VerificationResult where
  | success
  | partialV
  | failed
  | needsReplanning
deriving DecidableEq, Repr

/-- Parameter dictionaries; Any values abstracted as strings. -/
abbrev ParamDict := List (String × String)

structure PlanStep where
  id : String
  description : String
  action : String
  parameters : ParamDict
  required_tools : List String
  estimated_duration_seconds : Nat
  dependencies : List String := []
deriving DecidableEq, Repr

/-- Step outcome record; datetime/elapsed-time fields are elided (real time
is outside the embedding). -/
structure StepResult where
  step_id : String
  status : ExecutionStatus
  output : Option String := none
  error_message : Option String := none
deriving DecidableEq, Repr

structure Verification where
  result : VerificationResult
  reasoning : String
  task_complete : Bool
  should_replan : Bool := false
deriving DecidableEq, Repr

structure AgentPlan where
  task_description : String
  steps : List PlanStep
  step_dependencies : List (Nat × List Nat) := []
deriving DecidableEq, Repr

structure ToolMetadata where
  name : String
  description : String
  capabilities : List String
  domain : String
  parameters_schema : ParamDict
  required_permissions : List String := []
  execution_timeout_seconds : Nat := 60
  cost_estimate : Option String := none
deriving DecidableEq, Repr

/-! ## Tool contract and registry
(src/micro/backend/infrastructure/tools/tool_registry.py) -/

/-- A capability provider: metadata plus its polymorphic behaviour.  The
execute coroutine is modelled as a function to Except (error raised or
result value, serialised to a string). -/
structure Tool where
  metadata : ToolMetadata
  validate_parameters : ParamDict → Bool
  execute : ParamDict → Except String String
  can_handle : String → Bool

/-- Behaviour of the base class Tool.validate_parameters: always true. -/
def baseValidateParameters (_params : ParamDict) : Bool :=
  true

structure ToolRegistry where
  tools : List (String × Tool)
  capability_index : List (String × List String)
  domain_index : List (String × List String)

def emptyRegistry : ToolRegistry :=
  { tools := [], capability_index := [], domain_index := [] }

/-- Capability-index part of register: for each capability tag, create the
key when missing and append the tool name. -/
def regCapFold (name : String) : List String → List (String × List String) →
    List (String × List String)
  | [], idx => idx
  | c :: rest, idx =>
      regCapFold name rest (dictSet idx c ((dictGet idx c).getD [] ++ [name]))

/-- ToolRegistry.register: stores the tool under its name and indexes it
under every capability tag and its domain tag.  The source performs no
duplicate check: an existing name is overwritten in the tool map and its
name appended again to the index lists. -/
def registerTool (reg : ToolRegistry) (tool : Tool) : ToolRegistry :=
  let m := tool.metadata
  { tools := dictSet reg.tools m.name tool
    capability_index := regCapFold m.name m.capabilities reg.capability_index
    domain_index :=
      dictSet reg.domain_index m.domain
        ((dictGet reg.domain_index m.domain).getD [] ++ [m.name]) }

/-- One index-removal step of unregister: when the tag has an entry list,
remove the first occurrence of the name from it (ValueError when absent,
exactly like Python list.remove). -/
def unregCapStep (idx : List (String × List String)) (name c : String) :
    Except String (List (String × List String)) :=
  match dictGet idx c with
  | none => .ok idx
  | some l =>
      match removeFirst name l with
      | none => .error "ValueError: list.remove(x): x not in list"
      | some l' => .ok (dictSet idx c l')

/-- Index removal over all capability tags of the unregistered tool. -/
def unregCapFold (name : String) : List String → List (String × List String) →
    Except String (List (String × List String))
  | [], idx => .ok idx
  | c :: rest, idx =>
      match unregCapStep idx name c with
      | .error e => .error e
      | .ok idx' => unregCapFold name rest idx'

/-- ToolRegistry.unregister: pops the tool and strips its name from the
capability and domain index lists; returns whether a tool existed. -/
def unregisterTool (reg : ToolRegistry) (name : String) :
    Except String (ToolRegistry × Bool) :=
  match dictGet reg.tools name with
  | none => .ok (reg, false)
  | some tool =>
      let m := tool.metadata
      match unregCapFold name m.capabilities reg.capability_index with
      | .error e => .error e
      | .ok capIdx =>
          match unregCapStep reg.domain_index name m.domain with
          | .error e => .error e
          | .ok domIdx =>
              .ok ({ tools := dictRemove reg.tools name
                     capability_index := capIdx
                     domain_index := domIdx }, true)

/-- ToolRegistry.get_tool. -/
def getTool (reg : ToolRegistry) (name : String) : Option Tool :=
  dictGet reg.tools name

/-- ToolRegistry.get_all_tools. -/
def getAllTools (reg : ToolRegistry) : List Tool :=
  reg.tools.map (·.2)

/-- ToolRegistry.get_all_capabilities: current key list of the capability
index. -/
def getAllCapabilities (reg : ToolRegistry) : List String :=
  reg.capability_index.map (·.1)

/-- ToolRegistry.get_all_domains: current key list of the domain index. -/
def getAllDomains (reg : ToolRegistry) : List String :=
  reg.domain_index.map (·.1)

/-! ## Plan-Execute agent
(src/backend/infrastructure/agents/plan_execute_agent.py) -/

/-- Outcome the per-step execution oracle reports for one step: the step
completed with an output, the awaited call exceeded the step timeout, or an
exception was raised.  This abstracts the awaited call
asyncio.wait_for(self.executeStepBody(step, context), timeout) whose timing
is outside the embedding; the three cases are exactly the three recording
branches of the scheduler. -/
inductive StepOutcome where
  | completedWith (output : Option String)
  | timedOut
  | raised (msg : String)
deriving DecidableEq, Repr

/-- PlanExecuteAgent.executeStepTools models the body of the per-step tool
loop (the part of executing one step that is not timing): resolve every
required tool, validate, execute, and accumulate per-tool outputs; any
failure is raised.  Error cases are kept as a structured sum so that the
kinds of per-step failure stay distinguishable. -/
inductive StepToolError where
  | toolNotFound (name : String)
  | invalidParameters (name : String)
  | execError (msg : String)
deriving DecidableEq, Repr

def executeStepTools (reg : ToolRegistry) (params : ParamDict) :
    List String → Except StepToolError (List (String × String))
  | [] => .ok []
  | name :: rest =>
      match getTool reg name with
      | none => .error (.toolNotFound name)
      | some tool =>
          if tool.validate_parameters params then
            match tool.execute params with
            | .error e => .error (.execError e)
            | .ok out =>
                match executeStepTools reg params rest with
                | .error e => .error e
                | .ok outs => .ok ((name, out) :: outs)
          else .error (.invalidParameters name)

/-- PlanExecuteAgent.dependenciesSatisfiedCheck: every dependency identifier
must have a completed StepResult among the results accumulated so far in the
current attempt. -/
def dependenciesSatisfied (step : PlanStep) (results : List StepResult) : Bool :=
  if step.dependencies.isEmpty then true
  else
    step.dependencies.all fun dep =>
      results.any fun r =>
        r.step_id = dep ∧ r.status = ExecutionStatus.completed

/-- StepResult recorded when a dependency check fails. -/
def depFailResult (s : PlanStep) : StepResult :=
  { step_id := s.id
    status := ExecutionStatus.failed
    output := none
    error_message := some "Dependencies not satisfied" }

/-- StepResult recorded for an executed step, by outcome. -/
def resultForOutcome (s : PlanStep) : StepOutcome → StepResult
  | .completedWith out =>
      { step_id := s.id, status := ExecutionStatus.completed, output := out
        error_message := none }
  | .timedOut =>
      { step_id := s.id, status := ExecutionStatus.failed, output := none
        error_message := some "Step execution timeout" }
  | .raised msg =>
      { step_id := s.id, status := ExecutionStatus.failed, output := none
        error_message := some msg }

/-- Expected StepResult of one scheduled step given the results accumulated
before it: the dependency-gated evaluation the scheduler performs. -/
def stepEval (f : PlanStep → StepOutcome) (s : PlanStep)
    (prior : List StepResult) : StepResult :=
  if dependenciesSatisfied s prior then resultForOutcome s (f s)
  else depFailResult s

/-- Loop body of PlanExecuteAgent.executePlanPhase: one forward pass over the
steps, gating each step on its dependency check against the results so far,
recording one StepResult per step, and never aborting the pass.  Returns the
results and, as instrumentation, the positions (counted from i) of the steps
whose execution oracle was actually invoked. -/
def executePlanGo (runStep : PlanStep → StepOutcome) :
    List PlanStep → List StepResult → Nat → List StepResult × List Nat
  | [], _, _ => ([], [])
  | s :: rest, acc, i =>
      if dependenciesSatisfied s acc then
        let r := resultForOutcome s (runStep s)
        let rest' := executePlanGo runStep rest (acc ++ [r]) (i + 1)
        (r :: rest'.1, i :: rest'.2)
      else
        let r := depFailResult s
        let rest' := executePlanGo runStep rest (acc ++ [r]) (i + 1)
        (r :: rest'.1, rest'.2)

/-- PlanExecuteAgent.executePlanPhase on a plan (fresh result list per
attempt). -/
def executePlan (runStep : PlanStep → StepOutcome) (plan : AgentPlan) :
    List StepResult × List Nat :=
  executePlanGo runStep plan.steps [] 0

/-- Python str(status.value) of an ExecutionStatus. -/
def ExecutionStatus.value : ExecutionStatus → String
  | .pending => "pending"
  | .planning => "planning"
  | .executing => "executing"
  | .verifying => "verifying"
  | .completed => "completed"
  | .failed => "failed"
  | .replanning => "replanning"
  | .cancelled => "cancelled"

/-- Python rendering of an optional payload inside an f-string. -/
def optionText : Option String → String
  | none => "None"
  | some s => s

/-- PlanExecuteAgent.formatPlanForLlm. -/
def formatPlanForLlm (plan : AgentPlan) : String :=
  String.intercalate "\n"
    ((List.range plan.steps.length).zipWith
      (fun i step =>
        toString (i + 1) ++ ". " ++ step.description ++ " (using " ++
          String.intercalate ", " step.required_tools ++ ")")
      plan.steps)

/-- PlanExecuteAgent.formatResultsForLlm. -/
def formatResultsForLlm (results : List StepResult) : String :=
  String.intercalate "\n"
    (results.map fun r =>
      "Step " ++ r.step_id ++ ": " ++ r.status.value ++ " - " ++
        (if r.status = ExecutionStatus.completed then optionText r.output
         else optionText r.error_message))

/-- Verification prompt sent to the inference capability. -/
def verifyPrompt (task : String) (plan : AgentPlan) (results : List StepResult) :
    String :=
  "Verify if this task was completed successfully:\n\nTask: " ++ task ++
    "\n\nPlan executed:\n" ++ formatPlanForLlm plan ++ "\n\nResults:\n" ++
    formatResultsForLlm results ++
    "\n\nAnswer:\n1. Was the task completed successfully? (yes/no)\n2. What is your reasoning?\n3. Are there remaining steps needed?\n"

/-- PlanExecuteAgent.verifyExecutionPhase: the cheap local check first (any
non-completed StepResult short-circuits to a failed Verification listing the
failed step identifiers), otherwise one inference call classified by whether
the lowercased response mentions yes.  The second component counts the
inference calls made. -/
def verifyExecution (llm : String → String) (task : String) (plan : AgentPlan)
    (results : List StepResult) : Verification × Nat :=
  if results.all (fun r => r.status = ExecutionStatus.completed) then
    let response := llm (verifyPrompt task plan results)
    let task_complete := strContainsSub (strToLower response) "yes"
    ({ result := if task_complete then VerificationResult.success
                 else VerificationResult.partialV
       reasoning := response
       task_complete := task_complete
       should_replan := !task_complete }, 1)
  else
    ({ result := VerificationResult.failed
       reasoning := "Steps failed: " ++ String.intercalate ", "
         ((results.filter (fun r => r.status = ExecutionStatus.failed)).map
           (·.step_id))
       task_complete := false
       should_replan := true }, 0)

/-- PlanExecuteAgent.extractFinalOutput: newest completed result with a
truthy output (Python treats None and the empty payload as falsy). -/
def extractFinalOutput (results : List StepResult) : Option String :=
  match results.reverse.find? (fun r =>
      decide (r.status = ExecutionStatus.completed) &&
        (match r.output with | none => false | some s => !s.isEmpty)) with
  | some r => r.output
  | none => none

/-- PlanExecuteAgent.createPlanPhase: the source prompts the inference
capability but discards the response and builds a fixed single-step plan
from the first registered tool. -/
def createPlan (reg : ToolRegistry) (task : String) : AgentPlan :=
  { task_description := task
    steps := [{ id := "step_1"
                description := "Execute main task"
                action := "perform_task"
                parameters := [("task", task)]
                required_tools :=
                  match getAllTools reg with
                  | [] => []
                  | t :: _ => [t.metadata.name]
                estimated_duration_seconds := 60
                dependencies := [] }]
    step_dependencies := [] }

/-- PlanExecuteAgent.replanPhase: the source prompts the inference capability
for a revised plan but returns the original plan unchanged. -/
def replanPlan (_task : String) (originalPlan : AgentPlan)
    (_results : List StepResult) (_verification : Verification) : AgentPlan :=
  originalPlan

/-- Trace of one task execution: the AgentResult fields the claims are about,
plus instrumentation (number of execute/verify cycles and the verification
values produced, in order). -/
structure ExecTrace where
  status : ExecutionStatus
  replan_count : Nat
  error_message : Option String
  final_output : Option String
  step_results : List StepResult
  cycles : Nat
  verifications : List Verification
deriving DecidableEq, Repr

/-- The while-loop of PlanExecuteAgent.executeTaskLoop, entered with replan
counter r: execute the plan, verify, then complete, replan (incrementing the
counter while it is below the maximum), or fail with the verification
reasoning as the error message.  The loop terminates because the counter
grows toward the maximum; structurally this is expressed through a fuel
argument kept at least maxReplan plus one minus r, so the fuel-exhausted
case (like the loop-exit-by-condition case, reachable only with r above the
maximum) is never hit from the entry point and leaves the pre-loop
status. -/
def execLoopGo (runStep : PlanStep → StepOutcome) (llm : String → String)
    (task : String) (maxReplan : Nat) :
    Nat → AgentPlan → Nat → List StepResult → Nat → List Verification →
    ExecTrace
  | 0, _, r, acc, cycles, verifs =>
    { status := ExecutionStatus.planning
      replan_count := r
      error_message := none
      final_output := none
      step_results := acc
      cycles := cycles
      verifications := verifs }
  | fuel + 1, plan, r, acc, cycles, verifs =>
  if r ≤ maxReplan then
    if (verifyExecution llm task plan (executePlan runStep plan).1).1.task_complete then
      { status := ExecutionStatus.completed
        replan_count := r
        error_message := none
        final_output := extractFinalOutput (executePlan runStep plan).1
        step_results := acc ++ (executePlan runStep plan).1
        cycles := cycles + 1
        verifications :=
          verifs ++ [(verifyExecution llm task plan (executePlan runStep plan).1).1] }
    else if (verifyExecution llm task plan (executePlan runStep plan).1).1.should_replan
        = true ∧ r < maxReplan then
      execLoopGo runStep llm task maxReplan fuel
        (replanPlan task plan (executePlan runStep plan).1
          (verifyExecution llm task plan (executePlan runStep plan).1).1)
        (r + 1) (acc ++ (executePlan runStep plan).1) (cycles + 1)
        (verifs ++ [(verifyExecution llm task plan (executePlan runStep plan).1).1])
    else
      { status := ExecutionStatus.failed
        replan_count := r
        error_message :=
          some (verifyExecution llm task plan (executePlan runStep plan).1).1.reasoning
        final_output := none
        step_results := acc ++ (executePlan runStep plan).1
        cycles := cycles + 1
        verifications :=
          verifs ++ [(verifyExecution llm task plan (executePlan runStep plan).1).1] }
  else
    { status := ExecutionStatus.planning
      replan_count := r
      error_message := none
      final_output := none
      step_results := acc
      cycles := cycles
      verifications := verifs }

/-- PlanExecuteAgent.executeTaskEntry: plan once, then run the
execute/verify/replan loop starting from replan counter 0. -/
def executeTask (reg : ToolRegistry) (runStep : PlanStep → StepOutcome)
    (llm : String → String) (task : String) (maxReplan : Nat) : ExecTrace :=
  execLoopGo runStep llm task maxReplan (maxReplan + 1) (createPlan reg task) 0 [] 0 []

/-! ## Supervisor agent (src/backend/infrastructure/agents/supervisor_agent.py) -/

inductive AgentType where
  | coding
  | research
  | testing
  | general
  | supervisor
deriving DecidableEq, Repr

structure TaskAssignment where
  task_id : String
  agent_type : AgentType
  task_description : String
  dependencies : List String
  result : Option String := none
  status : String := "pending"
deriving DecidableEq, Repr

def codingKeywords : List String :=
  ["code", "implement", "function", "class", "api", "bug", "fix"]

def researchKeywords : List String :=
  ["research", "find", "analyze", "investigate", "document"]

def testingKeywords : List String :=
  ["test", "verify", "validate", "qa", "quality"]

/-- The keyword table of SupervisorAgent.analyzeTaskComplexity, in its
insertion order. -/
def agentKeywords : List (AgentType × List String) :=
  [(AgentType.coding, codingKeywords),
   (AgentType.research, researchKeywords),
   (AgentType.testing, testingKeywords)]

/-- Whether any keyword of the list occurs in the lowercased task. -/
def taskMatches (task : String) (kws : List String) : Bool :=
  kws.any fun kw => strContainsSub (strToLower task) kw

/-- The required-agents part of SupervisorAgent.analyzeTaskComplexity:
keyword-matched agent types in table order, falling back to general. -/
def requiredAgentsFor (task : String) : List AgentType :=
  let req := (agentKeywords.filter (fun p => taskMatches task p.2)).map (·.1)
  if req.isEmpty then [AgentType.general] else req

/-- Whether coordination is warranted (complexity score above one). -/
def needsCoordination (task : String) : Bool :=
  1 < (requiredAgentsFor task).length

/-- SupervisorAgent.decomposeTask: the fixed templated decomposition
research, then coding (depending on research when present), then testing
(depending on coding when present), with a general fallback. -/
def decomposeTask (task : String) (required : List AgentType) :
    List TaskAssignment :=
  let a1 : List TaskAssignment :=
    if required.contains AgentType.research then
      [{ task_id := "research_001", agent_type := AgentType.research
         task_description := "Research requirements for: " ++ task
         dependencies := [] }]
    else []
  let a2 : List TaskAssignment :=
    if required.contains AgentType.coding then
      [{ task_id := "coding_001", agent_type := AgentType.coding
         task_description := "Implement solution for: " ++ task
         dependencies :=
           if required.contains AgentType.research then ["research_001"] else [] }]
    else []
  let a3 : List TaskAssignment :=
    if required.contains AgentType.testing then
      [{ task_id := "testing_001", agent_type := AgentType.testing
         task_description := "Test and validate solution for: " ++ task
         dependencies :=
           if required.contains AgentType.coding then ["coding_001"] else [] }]
    else []
  let assignments := a1 ++ a2 ++ a3
  if assignments.isEmpty then
    [{ task_id := "general_001", agent_type := AgentType.general
       task_description := task, dependencies := [] }]
  else assignments

/-- One pass of the readiness loop in
SupervisorAgent.executeCoordinatedTask: scan the assignments in order and,
for each not yet completed whose dependencies are all completed, dispatch
it and mark it completed immediately (the completed set grows during the
pass).  Returns the updated completed set and dispatch order. -/
def coordPass : List TaskAssignment → List String × List String →
    List String × List String
  | [], st => st
  | a :: rest, (completedIds, order) =>
      if completedIds.contains a.task_id then
        coordPass rest (completedIds, order)
      else if a.dependencies.all (fun d => completedIds.contains d) then
        coordPass rest (completedIds ++ [a.task_id], order ++ [a.task_id])
      else
        coordPass rest (completedIds, order)

/-- The while-loop around the readiness passes.  The source loops until
every assignment is completed and diverges when a pass makes no progress;
divergence is modelled by fuel exhaustion returning none. -/
def coordLoop (assignments : List TaskAssignment) :
    Nat → List String × List String → Option (List String)
  | 0, _ => none
  | fuel + 1, (completedIds, order) =>
      if assignments.length ≤ completedIds.length then some order
      else coordLoop assignments fuel (coordPass assignments (completedIds, order))

/-- Dispatch order of the readiness loop of
SupervisorAgent.executeCoordinatedTask (each productive pass completes at
least one assignment, so length-plus-one passes suffice when the loop
terminates at all). -/
def coordinationOrder (assignments : List TaskAssignment) :
    Option (List String) :=
  coordLoop assignments (assignments.length + 1) ([], [])

/-! ## MCP protocol dispatcher
(src/micro/backend/infrastructure/communication/mcp_server.py) -/

structure MCPError where
  code : Int
  message : String
deriving DecidableEq, Repr

/-- Tool entry of the tools/list response. -/
structure ToolListEntry where
  name : String
  description : String
  capabilities : List String
  domain : String
  inputSchema : ParamDict
deriving DecidableEq, Repr

/-- Fixed resource entries of the resources/list response. -/
structure ResourceEntry where
  uri : String
  name : String
  description : String
  mimeType : String
deriving DecidableEq, Repr

def mcpResources : List ResourceEntry :=
  [{ uri := "tool://registry", name := "Tool Registry"
     description := "Dynamic tool discovery system"
     mimeType := "application/json" },
   { uri := "agent://capabilities", name := "Agent Capabilities"
     description := "Available agent capabilities"
     mimeType := "application/json" }]

/-- Result payloads of the success responses, one constructor per handler. -/
inductive MCPResultPayload where
  | serverInfo
  | toolsList (tools : List ToolListEntry)
  | callResult (contentText : String) (isError : Bool)
  | resources (rs : List ResourceEntry)
  | pong
deriving DecidableEq, Repr

/-- Params fields the handlers read (capability negotiation payload and the
tools/call name/arguments). -/
structure MCPParams where
  capabilities : ParamDict := []
  name : Option String := none
  arguments : ParamDict := []
deriving DecidableEq, Repr

structure MCPRequest where
  id : Option String := none
  method : Option String := none
  params : Option MCPParams := none
deriving DecidableEq, Repr

structure MCPResponse where
  jsonrpc : String := "2.0"
  id : Option String := none
  result : Option MCPResultPayload := none
  error : Option MCPError := none
deriving DecidableEq, Repr

structure MCPServerState where
  tool_registry : ToolRegistry
  initialized : Bool := false
  client_capabilities : ParamDict := []

def errorResponse (id : Option String) (code : Int) (message : String) :
    MCPResponse :=
  { id := id, result := none, error := some { code := code, message := message } }

def successResponse (id : Option String) (payload : MCPResultPayload) :
    MCPResponse :=
  { id := id, result := some payload, error := none }

/-- MCPServer handler for initialize: stores the client capabilities, marks
the server initialized, and answers with the fixed server info. -/
def handleInitialize (srv : MCPServerState) (msg : MCPRequest) :
    MCPServerState × MCPResponse :=
  let params := msg.params.getD {}
  ({ srv with initialized := true, client_capabilities := params.capabilities },
   successResponse msg.id MCPResultPayload.serverInfo)

/-- MCPServer handler for tools/list: rejected before initialization,
otherwise the registry descriptor set. -/
def handleToolsList (srv : MCPServerState) (msg : MCPRequest) : MCPResponse :=
  if !srv.initialized then
    errorResponse msg.id (-32002) "Server not initialized"
  else
    successResponse msg.id (MCPResultPayload.toolsList
      ((getAllTools srv.tool_registry).map fun t =>
        { name := t.metadata.name, description := t.metadata.description
          capabilities := t.metadata.capabilities, domain := t.metadata.domain
          inputSchema := t.metadata.parameters_schema }))

/-- MCPServer handler for tools/call: rejected before initialization; a
missing or empty tool name and an unknown tool name are parameter errors;
otherwise the tool is executed directly (the handler never consults
validate_parameters) and the outcome is wrapped into a success envelope
whose isError flag distinguishes an execution error. -/
def handleToolsCall (srv : MCPServerState) (msg : MCPRequest) : MCPResponse :=
  if !srv.initialized then
    errorResponse msg.id (-32002) "Server not initialized"
  else
    let params := msg.params.getD {}
    match params.name with
    | none => errorResponse msg.id (-32602) "Missing tool name"
    | some n =>
        if n = "" then errorResponse msg.id (-32602) "Missing tool name"
        else
          match getTool srv.tool_registry n with
          | none => errorResponse msg.id (-32602) ("Tool not found: " ++ n)
          | some tool =>
              match tool.execute params.arguments with
              | .ok v =>
                  successResponse msg.id (MCPResultPayload.callResult v false)
              | .error e =>
                  successResponse msg.id (MCPResultPayload.callResult e true)

/-- MCPServer handler for resources/list: answers the fixed resource set
without any initialization check. -/
def handleResourcesList (_srv : MCPServerState) (msg : MCPRequest) :
    MCPResponse :=
  successResponse msg.id (MCPResultPayload.resources mcpResources)

/-- MCPServer.handle_message: the dispatch on the method name (a missing or
empty method is an invalid request; an unmatched method name is a
method-not-found error; ping is answered without any initialization
check). -/
def handleMessage (srv : MCPServerState) (msg : MCPRequest) :
    MCPServerState × MCPResponse :=
  match msg.method with
  | none => (srv, errorResponse msg.id (-32600) "Invalid Request: method required")
  | some m =>
      if m = "" then
        (srv, errorResponse msg.id (-32600) "Invalid Request: method required")
      else if m = "initialize" then handleInitialize srv msg
      else if m = "tools/list" then (srv, handleToolsList srv msg)
      else if m = "tools/call" then (srv, handleToolsCall srv msg)
      else if m = "resources/list" then (srv, handleResourcesList srv msg)
      else if m = "ping" then (srv, successResponse msg.id MCPResultPayload.pong)
      else (srv, errorResponse msg.id (-32601) ("Method not found: " ++ m))

/-! ## Concrete instances used by witnesses and counterexamples -/

/-- First step of the two-step demo plan. -/
def c2Step1 : PlanStep :=
  { id := "step_1", description := "first", action := "a"
    parameters := [], required_tools := []
    estimated_duration_seconds := 60, dependencies := [] }

/-- Second step of the two-step demo plan; depends on the first. -/
def c2Step2 : PlanStep :=
  { id := "step_2", description := "second", action := "b"
    parameters := [], required_tools := []
    estimated_duration_seconds := 60, dependencies := ["step_1"] }

/-- Two-step plan whose second step depends on the first. -/
def c2Plan : AgentPlan :=
  { task_description := "demo"
    steps := [c2Step1, c2Step2]
    step_dependencies := [] }

/-- Oracle under which every executed step raises. -/
def c2Run : PlanStep → StepOutcome := fun _ => StepOutcome.raised "boom"

/-- Oracle under which every executed step completes with an output. -/
def okRun : PlanStep → StepOutcome :=
  fun _ => StepOutcome.completedWith (some "out")

/-- Inference stub that never says yes. -/
def noLlm : String → String := fun _ => "task is not done"

/-- Results of an attempt with one completed and one failed step. -/
def c3Results : List StepResult :=
  [{ step_id := "step_1", status := ExecutionStatus.completed
     output := some "ok", error_message := none },
   { step_id := "step_2", status := ExecutionStatus.failed
     output := none, error_message := some "boom" }]

/-- First registration under the name t. -/
def tDup1 : Tool :=
  { metadata :=
      { name := "t", description := "first", capabilities := ["cap"]
        domain := "dom", parameters_schema := [] }
    validate_parameters := fun _ => true
    execute := fun _ => .ok "one"
    can_handle := fun _ => true }

/-- Second registration under the same name t. -/
def tDup2 : Tool :=
  { metadata :=
      { name := "t", description := "second", capabilities := ["cap"]
        domain := "dom", parameters_schema := [] }
    validate_parameters := fun _ => true
    execute := fun _ => .ok "two"
    can_handle := fun _ => true }

/-- Tool used for the register/unregister round trip. -/
def tRt : Tool :=
  { metadata :=
      { name := "rt", description := "round trip", capabilities := ["read"]
        domain := "io", parameters_schema := [] }
    validate_parameters := fun _ => true
    execute := fun _ => .ok "done"
    can_handle := fun _ => true }

/-- Tool whose validator rejects everything but whose execution succeeds. -/
def tNoVal : Tool :=
  { metadata :=
      { name := "nv", description := "never valid", capabilities := ["cap"]
        domain := "dom", parameters_schema := [] }
    validate_parameters := fun _ => false
    execute := fun _ => .ok "ran"
    can_handle := fun _ => true }

/-- Tool that inherits the base validator. -/
def baseTool : Tool :=
  { metadata :=
      { name := "b", description := "base validator", capabilities := ["cap"]
        domain := "dom", parameters_schema := [] }
    validate_parameters := baseValidateParameters
    execute := fun _ => .ok "done"
    can_handle := fun _ => true }

/-- Registry holding only baseTool. -/
def regBase : ToolRegistry := registerTool emptyRegistry baseTool

/-- Fresh (uninitialized) MCP server over an empty registry. -/
def srvFresh : MCPServerState := { tool_registry := emptyRegistry }

/-- Initialized MCP server whose registry holds only tNoVal. -/
def srvNoVal : MCPServerState :=
  { tool_registry := registerTool emptyRegistry tNoVal, initialized := true }

/-- A resources/list request. -/
def msgResourcesList : MCPRequest := { id := some "1", method := some "resources/list" }

/-- A ping request. -/
def msgPing : MCPRequest := { id := some "1", method := some "ping" }

/-- A tools/list request. -/
def msgToolsList : MCPRequest := { id := some "1", method := some "tools/list" }

/-- A tools/call request with no params. -/
def msgToolsCallBare : MCPRequest := { id := some "2", method := some "tools/call" }

/-- Params naming the tool nv with one argument. -/
def nvParams : MCPParams := { name := some "nv", arguments := [("x", "1")] }

/-- A tools/call request for nv with one argument. -/
def msgCallNv : MCPRequest :=
  { id := some "1", method := some "tools/call", params := some nvParams }

/-- Params naming an unregistered tool. -/
def missingParams : MCPParams := { name := some "missing", arguments := [] }

/-- A tools/call request for an unregistered tool. -/
def msgCallMissing : MCPRequest :=
  { id := some "1", method := some "tools/call", params := some missingParams }

/-- Params naming nv with empty arguments. -/
def nvParams2 : MCPParams := { name := some "nv", arguments := [] }

/-- A tools/call request for nv with empty arguments. -/
def msgCallNv2 : MCPRequest :=
  { id := some "1", method := some "tools/call", params := some nvParams2 }

/-- Registry state left by the tRt round trip: empty tool map, but the
read and io keys survive with empty member lists. -/
def rtLeftover : ToolRegistry :=
  { tools := [], capability_index := [("read", [])]
    domain_index := [("io", [])] }

/-- Index keys left behind by a register/unregister round trip: every
capability tag that was not yet an index key survives as a key with an
empty member list, appended in first-occurrence order. -/
def newKeysFold : List String → List (String × List String) →
    List (String × List String)
  | [], idx => idx
  | c :: rest, idx =>
      newKeysFold rest
        (if (dictGet idx c).isSome then idx else idx ++ [(c, [])])

/-! ## Lemmas about the dict model -/

theorem dictGet_dictSet_self {α : Type} (l : List (String × α)) (k : String)
    (v : α) : dictGet (dictSet l k v) k = some v := by
  induction l with
  | nil => simp [dictSet, dictGet]
  | cons hd tl ih =>
      obtain ⟨k', v'⟩ := hd
      by_cases h : k' = k
      · simp [dictSet, dictGet, h]
      · simp [dictSet, dictGet, h, ih]

theorem dictGet_dictSet_ne {α : Type} (l : List (String × α)) (k k2 : String)
    (v : α) (h : k ≠ k2) : dictGet (dictSet l k v) k2 = dictGet l k2 := by
  induction l with
  | nil => simp [dictSet, dictGet, h]
  | cons hd tl ih =>
      obtain ⟨k', v'⟩ := hd
      by_cases h' : k' = k
      · subst h'
        simp [dictSet, dictGet, h]
      · by_cases h2 : k' = k2
        · subst h2
          simp [dictSet, dictGet, h', Ne.symm h]
        · simp [dictSet, dictGet, h', h2, ih]

theorem dictSet_fresh {α : Type} (l : List (String × α)) (k : String) (v : α)
    (h : dictGet l k = none) : dictSet l k v = l ++ [(k, v)] := by
  induction l with
  | nil => simp [dictSet]
  | cons hd tl ih =>
      obtain ⟨k', v'⟩ := hd
      by_cases h' : k' = k
      · simp [dictGet, h'] at h
      · simp [dictGet, h'] at h
        simp [dictSet, h', ih h]

theorem dictRemove_append_fresh {α : Type} (l : List (String × α)) (k : String)
    (v : α) (h : dictGet l k = none) : dictRemove (l ++ [(k, v)]) k = l := by
  induction l with
  | nil => simp [dictRemove]
  | cons hd tl ih =>
      obtain ⟨k', v'⟩ := hd
      by_cases h' : k' = k
      · simp [dictGet, h'] at h
      · simp [dictGet, h'] at h
        simp [dictRemove, h', ih h]

theorem dictSet_dictSet_same {α : Type} (l : List (String × α)) (k : String)
    (v v' : α) : dictSet (dictSet l k v) k v' = dictSet l k v' := by
  induction l with
  | nil => simp [dictSet]
  | cons hd tl ih =>
      obtain ⟨k', w⟩ := hd
      by_cases h : k' = k
      · simp [dictSet, h]
      · simp [dictSet, h, ih]

theorem dictSet_same_value {α : Type} (l : List (String × α)) (k : String)
    (v : α) (h : dictGet l k = some v) : dictSet l k v = l := by
  induction l with
  | nil => simp [dictGet] at h
  | cons hd tl ih =>
      obtain ⟨k', w⟩ := hd
      by_cases h' : k' = k
      · subst h'
        simp [dictGet] at h
        simp [dictSet, h]
      · simp [dictGet, h'] at h
        simp [dictSet, h', ih h]

theorem removeFirst_append_self (x : String) (l : List String) (h : x ∉ l) :
    removeFirst x (l ++ [x]) = some l := by
  induction l with
  | nil => simp [removeFirst]
  | cons y ys ih =>
      simp only [List.mem_cons, not_or] at h
      simp [removeFirst, Ne.symm h.1, ih h.2]

/-! ## Lemmas about register -/

theorem regCapFold_mem_pres (name c : String) (caps : List String)
    (idx : List (String × List String))
    (h : ∃ l, dictGet idx c = some l ∧ name ∈ l) :
    ∃ l, dictGet (regCapFold name caps idx) c = some l ∧ name ∈ l := by
  induction caps generalizing idx with
  | nil => exact h
  | cons c' rest ih =>
      rw [regCapFold]
      apply ih
      by_cases hc : c' = c
      · subst hc
        exact ⟨_, dictGet_dictSet_self .., by simp⟩
      · rw [dictGet_dictSet_ne _ _ _ _ hc]
        exact h

theorem regCapFold_mem (name : String) (caps : List String)
    (idx : List (String × List String)) (c : String) (hc : c ∈ caps) :
    ∃ l, dictGet (regCapFold name caps idx) c = some l ∧ name ∈ l := by
  induction caps generalizing idx with
  | nil => cases hc
  | cons c' rest ih =>
      rw [regCapFold]
      rcases List.mem_cons.mp hc with h | h
      · subst h
        apply regCapFold_mem_pres
        exact ⟨_, dictGet_dictSet_self .., by simp⟩
      · exact ih _ h

/-! ## Claim C4: duplicate registration -/

theorem dictGet_append_single_ne {α : Type} (l : List (String × α))
    (k k' : String) (v : α) (h : k ≠ k') :
    dictGet (l ++ [(k, v)]) k' = dictGet l k' := by
  induction l with
  | nil => simp [dictGet, h]
  | cons hd tl ih =>
      obtain ⟨k2, v2⟩ := hd
      by_cases h2 : k2 = k'
      · simp [dictGet, h2]
      · simp [dictGet, h2, ih]

theorem regCapFold_get_notmem (name : String) (caps : List String)
    (idx : List (String × List String)) (c : String) (hc : c ∉ caps) :
    dictGet (regCapFold name caps idx) c = dictGet idx c := by
  induction caps generalizing idx with
  | nil => rfl
  | cons c' rest ih =>
      simp only [List.mem_cons, not_or] at hc
      rw [regCapFold, ih _ hc.2, dictGet_dictSet_ne _ _ _ _ (Ne.symm hc.1)]

theorem dictSet_comm_existing {α : Type} (l : List (String × α))
    (k c : String) (v w : α) (hne : k ≠ c) (hk : (dictGet l k).isSome) :
    dictSet (dictSet l c w) k v = dictSet (dictSet l k v) c w := by
  induction l with
  | nil => simp [dictGet] at hk
  | cons hd tl ih =>
      obtain ⟨k2, v2⟩ := hd
      by_cases h2 : k2 = k
      · subst h2
        simp [dictSet, Ne.symm hne, hne]
      · by_cases h3 : k2 = c
        · subst h3
          simp [dictSet, h2, hne]
        · simp [dictGet, h2] at hk
          simp [dictSet, h2, h3, ih hk]

theorem dictSet_regCapFold_comm (name : String) (rest : List String)
    (idx : List (String × List String)) (k : String) (v : List String)
    (hk : k ∉ rest) (hex : (dictGet idx k).isSome) :
    dictSet (regCapFold name rest idx) k v
      = regCapFold name rest (dictSet idx k v) := by
  induction rest generalizing idx with
  | nil => rfl
  | cons c' rest' ih =>
      simp only [List.mem_cons, not_or] at hk
      rw [regCapFold, regCapFold, dictGet_dictSet_ne _ _ _ _ hk.1,
        ← dictSet_comm_existing _ _ _ _ _ hk.1 hex]
      exact ih _ hk.2
        (by rw [dictGet_dictSet_ne _ _ _ _ (Ne.symm hk.1)]; exact hex)

theorem unregCapFold_cons_ok (name c : String) (rest : List String)
    (idx idx' : List (String × List String))
    (h : unregCapStep idx name c = .ok idx') :
    unregCapFold name (c :: rest) idx = unregCapFold name rest idx' := by
  rw [unregCapFold, h]

theorem unregCapFold_regCapFold (name : String) (caps : List String)
    (idx : List (String × List String)) (hnd : caps.Nodup)
    (hnm : ∀ c l, dictGet idx c = some l → name ∉ l) :
    unregCapFold name caps (regCapFold name caps idx)
      = .ok (newKeysFold caps idx) := by
  induction caps generalizing idx with
  | nil => rfl
  | cons c rest ih =>
      obtain ⟨hcr, hndr⟩ := List.nodup_cons.mp hnd
      have hl0 : name ∉ (dictGet idx c).getD [] := by
        cases hg : dictGet idx c with
        | none => simp
        | some l => exact hnm c l hg
      have hgetJ : dictGet (regCapFold name rest
          (dictSet idx c ((dictGet idx c).getD [] ++ [name]))) c
          = some ((dictGet idx c).getD [] ++ [name]) := by
        rw [regCapFold_get_notmem _ _ _ _ hcr, dictGet_dictSet_self]
      have hstep : unregCapStep (regCapFold name rest
            (dictSet idx c ((dictGet idx c).getD [] ++ [name]))) name c
          = .ok (dictSet (regCapFold name rest
              (dictSet idx c ((dictGet idx c).getD [] ++ [name]))) c
              ((dictGet idx c).getD [])) := by
        unfold unregCapStep
        rw [hgetJ]
        simp only [removeFirst_append_self _ _ hl0]
      have hset : dictSet (regCapFold name rest
            (dictSet idx c ((dictGet idx c).getD [] ++ [name]))) c
            ((dictGet idx c).getD [])
          = regCapFold name rest (dictSet idx c ((dictGet idx c).getD [])) := by
        rw [dictSet_regCapFold_comm _ _ _ _ _ hcr
          (by rw [dictGet_dictSet_self]; rfl), dictSet_dictSet_same]
      rw [regCapFold, unregCapFold_cons_ok _ _ _ _ _ hstep, hset]
      cases hg : dictGet idx c with
      | some l0 =>
          have hidx : dictSet idx c ((some l0).getD []) = idx :=
            dictSet_same_value _ _ _ hg
          rw [hidx, ih _ hndr hnm, newKeysFold]
          simp [hg]
      | none =>
          have hidx : dictSet idx c ((none : Option (List String)).getD [])
              = idx ++ [(c, [])] :=
            dictSet_fresh _ _ _ hg
          rw [hidx, ih _ hndr ?_, newKeysFold]
          · simp [hg]
          · intro c' l' hga
            by_cases hc' : c = c'
            · subst hc'
              have h2 : dictGet (idx ++ [(c, [])]) c = some [] := by
                have h3 := dictGet_dictSet_self idx c ([] : List String)
                rwa [dictSet_fresh _ _ _ hg] at h3
              rw [h2] at hga
              simp only [Option.some.injEq] at hga
              subst hga
              simp
            · rw [dictGet_append_single_ne _ _ _ _ hc'] at hga
              exact hnm _ _ hga

theorem newKeysFold_keys (caps : List String)
    (idx : List (String × List String)) (hnd : caps.Nodup) :
    (newKeysFold caps idx).map (·.1)
      = idx.map (·.1) ++ caps.filter (fun c => (dictGet idx c).isNone) := by
  induction caps generalizing idx with
  | nil => simp [newKeysFold]
  | cons c rest ih =>
      obtain ⟨hcr, hndr⟩ := List.nodup_cons.mp hnd
      rw [newKeysFold]
      cases hg : dictGet idx c with
      | some l0 =>
          have hif : (if (some l0).isSome = true then idx else idx ++ [(c, [])])
              = idx := by simp
          rw [hif, ih _ hndr]
          simp [List.filter_cons, hg]
      | none =>
          have hif : (if (none : Option (List String)).isSome = true
              then idx else idx ++ [(c, [])]) = idx ++ [(c, [])] := by simp
          rw [hif, ih _ hndr]
          have hfil : rest.filter (fun c' => (dictGet (idx ++ [(c, [])]) c').isNone)
              = rest.filter (fun c' => (dictGet idx c').isNone) := by
            apply List.filter_congr
            intro x hx
            rw [dictGet_append_single_ne _ _ _ _
              (fun h => hcr (by rw [h]; exact hx))]
          simp [hfil, List.filter_cons, hg]

theorem unregisterTool_found (reg : ToolRegistry) (name : String) (tool : Tool)
    (h : dictGet reg.tools name = some tool)
    (capIdx domIdx : List (String × List String))
    (hcap : unregCapFold name tool.metadata.capabilities reg.capability_index
      = .ok capIdx)
    (hdom : unregCapStep reg.domain_index name tool.metadata.domain = .ok domIdx) :
    unregisterTool reg name
      = .ok ({ tools := dictRemove reg.tools name
               capability_index := capIdx
               domain_index := domIdx }, true) := by
  simp only [unregisterTool, h, hcap, hdom]

/-! ## Claim C5: register/unregister round trip -/

/-- Claim C5 (counterexample): on the empty registry, registering a tool
with the fresh capability tag read and fresh domain tag io and then
unregistering it leaves read and io as index keys with empty member lists,
so allCapabilities and allDomains differ from their pre-registration
values. -/
theorem registry_roundtrip_counterexample :
    unregisterTool (registerTool emptyRegistry tRt) "rt" = .ok (rtLeftover, true)
    ∧ getAllCapabilities rtLeftover = ["read"]
    ∧ getAllCapabilities emptyRegistry = []
    ∧ getAllDomains rtLeftover = ["io"]
    ∧ getAllDomains emptyRegistry = []
    ∧ (["read"] : List String) ≠ [] :=
  ⟨rfl, rfl, rfl, rfl, rfl, by decide⟩

/-- Claim C5 (amended): for a tool whose capability list has no duplicate
tags, whose name is not yet registered and appears in no index list,
register(tool) followed by unregister(tool.name) succeeds and restores the
tool map exactly, but allCapabilities and allDomains keep, appended at the
end, the capability and domain keys the registration newly created (with
empty member lists); they equal their pre-registration values only when
every capability tag and the domain tag were already index keys. -/
theorem registry_roundtrip (reg : ToolRegistry) (t : Tool)
    (hfresh : dictGet reg.tools t.metadata.name = none)
    (hcap : ∀ c l, dictGet reg.capability_index c = some l → t.metadata.name ∉ l)
    (hdom : ∀ d l, dictGet reg.domain_index d = some l → t.metadata.name ∉ l)
    (hnd : t.metadata.capabilities.Nodup) :
    ∃ reg' : ToolRegistry,
      unregisterTool (registerTool reg t) t.metadata.name = .ok (reg', true)
      ∧ reg'.tools = reg.tools
      ∧ getAllCapabilities reg'
          = getAllCapabilities reg ++ t.metadata.capabilities.filter
              (fun c => (dictGet reg.capability_index c).isNone)
      ∧ getAllDomains reg'
          = getAllDomains reg ++
              (if (dictGet reg.domain_index t.metadata.domain).isNone
               then [t.metadata.domain] else []) := by
  have hfound : dictGet (registerTool reg t).tools t.metadata.name = some t :=
    dictGet_dictSet_self ..
  have hcapidx : unregCapFold t.metadata.name t.metadata.capabilities
      (registerTool reg t).capability_index
      = .ok (newKeysFold t.metadata.capabilities reg.capability_index) :=
    unregCapFold_regCapFold _ _ _ hnd hcap
  have hl0 : t.metadata.name ∉
      (dictGet reg.domain_index t.metadata.domain).getD [] := by
    cases hg : dictGet reg.domain_index t.metadata.domain with
    | none => simp
    | some l => exact hdom _ l hg
  have hdomstep : unregCapStep (registerTool reg t).domain_index
      t.metadata.name t.metadata.domain
      = .ok (if (dictGet reg.domain_index t.metadata.domain).isSome
             then reg.domain_index
             else reg.domain_index ++ [(t.metadata.domain, [])]) := by
    show unregCapStep (dictSet reg.domain_index t.metadata.domain
      ((dictGet reg.domain_index t.metadata.domain).getD []
        ++ [t.metadata.name])) t.metadata.name t.metadata.domain = _
    unfold unregCapStep
    rw [dictGet_dictSet_self]
    simp only [removeFirst_append_self _ _ hl0, dictSet_dictSet_same]
    cases hg : dictGet reg.domain_index t.metadata.domain with
    | some l0 => simp [dictSet_same_value _ _ _ hg]
    | none => simp [dictSet_fresh _ _ _ hg]
  refine ⟨_, unregisterTool_found _ _ _ hfound _ _ hcapidx hdomstep, ?_, ?_, ?_⟩
  · show dictRemove (dictSet reg.tools t.metadata.name t) t.metadata.name
      = reg.tools
    rw [dictSet_fresh _ _ _ hfresh, dictRemove_append_fresh _ _ _ hfresh]
  · exact newKeysFold_keys _ _ hnd
  · show (if (dictGet reg.domain_index t.metadata.domain).isSome
        then reg.domain_index
        else reg.domain_index ++ [(t.metadata.domain, [])]).map (·.1) = _
    cases hg : dictGet reg.domain_index t.metadata.domain with
    | some l0 => simp [getAllDomains, hg]
    | none => simp [getAllDomains, hg]

/-- Claim C5 (witness): the amended round trip evaluated on the empty
registry and the tool tRt. -/
theorem registry_roundtrip_witness :
    ∃ reg' : ToolRegistry,
      unregisterTool (registerTool emptyRegistry tRt) "rt" = .ok (reg', true)
      ∧ reg'.tools = emptyRegistry.tools
      ∧ getAllCapabilities reg'
          = getAllCapabilities emptyRegistry ++ tRt.metadata.capabilities.filter
              (fun c => (dictGet emptyRegistry.capability_index c).isNone)
      ∧ getAllDomains reg'
          = getAllDomains emptyRegistry ++
              (if (dictGet emptyRegistry.domain_index tRt.metadata.domain).isNone
               then [tRt.metadata.domain] else []) :=
  registry_roundtrip emptyRegistry tRt rfl
    (by intro c l h; simp [emptyRegistry, dictGet] at h)
    (by intro d l h; simp [emptyRegistry, dictGet] at h)
    (by decide)

/-- Claim C4 (counterexample): registering a second provider under the name
t neither fails nor preserves the first provider — the stored tool is
silently replaced and the capability index list for cap now carries the
name twice, refuting the claim that register rejects an already-registered
name. -/
theorem register_duplicate_counterexample :
    (getTool (registerTool emptyRegistry tDup1) "t").isSome = true
    ∧ (getTool (registerTool (registerTool emptyRegistry tDup1) tDup2) "t").map
        (fun tl => tl.metadata.description) = some "second"
    ∧ dictGet (registerTool (registerTool emptyRegistry tDup1) tDup2).capability_index
        "cap" = some ["t", "t"]
    ∧ ("second" : String) ≠ "first" :=
  ⟨rfl, rfl, rfl, by decide⟩

/-- Claim C4 (amended): register(provider) never fails.  When a provider
with the same name is already registered it silently overwrites the stored
provider under that name and appends the name again to its capability and
domain index lists; no explicit unregister is required first. -/
theorem register_never_fails_overwrites (reg : ToolRegistry) (t : Tool) :
    getTool (registerTool reg t) t.metadata.name = some t
    ∧ (∀ c ∈ t.metadata.capabilities,
        ∃ l, dictGet (registerTool reg t).capability_index c = some l ∧
          t.metadata.name ∈ l)
    ∧ (∃ l, dictGet (registerTool reg t).domain_index t.metadata.domain = some l ∧
        t.metadata.name ∈ l) := by
  refine ⟨dictGet_dictSet_self .., ?_, ?_⟩
  · intro c hc
    exact regCapFold_mem _ _ _ _ hc
  · exact ⟨_, dictGet_dictSet_self .., by simp⟩

/-! ## Lemmas about the step scheduler -/

theorem resultForOutcome_step_id (s : PlanStep) (o : StepOutcome) :
    (resultForOutcome s o).step_id = s.id := by
  cases o <;> rfl

theorem executePlanGo_map (f : PlanStep → StepOutcome) :
    ∀ (ss : List PlanStep) (acc : List StepResult) (i : Nat),
    ((executePlanGo f ss acc i).1).map (·.step_id) = ss.map (·.id) := by
  intro ss
  induction ss with
  | nil => intro acc i; rfl
  | cons s rest ih =>
      intro acc i
      by_cases hd : dependenciesSatisfied s acc
      · simp [executePlanGo, hd, ih, resultForOutcome_step_id]
      · simp [executePlanGo, hd, ih, depFailResult]

theorem executePlanGo_length (f : PlanStep → StepOutcome)
    (ss : List PlanStep) (acc : List StepResult) (i : Nat) :
    ((executePlanGo f ss acc i).1).length = ss.length := by
  rw [← List.length_map ((executePlanGo f ss acc i).1) (·.step_id),
    executePlanGo_map, List.length_map]

theorem executePlanGo_getElem (f : PlanStep → StepOutcome) :
    ∀ (ss : List PlanStep) (acc : List StepResult) (i j : Nat) (s : PlanStep),
    ss[j]? = some s →
    ((executePlanGo f ss acc i).1)[j]?
      = some (stepEval f s (acc ++ ((executePlanGo f ss acc i).1).take j)) := by
  intro ss
  induction ss with
  | nil => intro acc i j s hj; simp at hj
  | cons s0 rest ih =>
      intro acc i j s hj
      match j with
      | 0 =>
          simp only [List.getElem?_cons_zero, Option.some.injEq] at hj
          subst hj
          by_cases hd : dependenciesSatisfied s0 acc
          · simp [executePlanGo, hd, stepEval]
          · simp [executePlanGo, hd, stepEval]
      | j + 1 =>
          simp only [List.getElem?_cons_succ] at hj
          by_cases hd : dependenciesSatisfied s0 acc
          · have hIH := ih (acc ++ [resultForOutcome s0 (f s0)]) (i + 1) j s hj
            rw [← List.append_cons] at hIH
            rw [executePlanGo, if_pos hd]
            simp only [List.getElem?_cons_succ, List.take_succ_cons]
            exact hIH
          · have hIH := ih (acc ++ [depFailResult s0]) (i + 1) j s hj
            rw [← List.append_cons] at hIH
            rw [executePlanGo, if_neg hd]
            simp only [List.getElem?_cons_succ, List.take_succ_cons]
            exact hIH

theorem executePlanGo_exec_ge (f : PlanStep → StepOutcome) :
    ∀ (ss : List PlanStep) (acc : List StepResult) (i : Nat),
    ∀ k ∈ (executePlanGo f ss acc i).2, i ≤ k := by
  intro ss
  induction ss with
  | nil => intro acc i k hk; simp [executePlanGo] at hk
  | cons s0 rest ih =>
      intro acc i k hk
      by_cases hd : dependenciesSatisfied s0 acc
      · simp only [executePlanGo, hd, if_true, List.mem_cons] at hk
        rcases hk with h | h
        · omega
        · have := ih _ _ _ h
          omega
      · simp only [executePlanGo, hd, if_false, Bool.false_eq_true] at hk
        have := ih _ _ _ hk
        omega

theorem executePlanGo_exec_mem (f : PlanStep → StepOutcome) :
    ∀ (ss : List PlanStep) (acc : List StepResult) (i j : Nat) (s : PlanStep),
    ss[j]? = some s →
    ((i + j) ∈ (executePlanGo f ss acc i).2
      ↔ dependenciesSatisfied s (acc ++ ((executePlanGo f ss acc i).1).take j)
          = true) := by
  intro ss
  induction ss with
  | nil => intro acc i j s hj; simp at hj
  | cons s0 rest ih =>
      intro acc i j s hj
      match j with
      | 0 =>
          simp only [List.getElem?_cons_zero, Option.some.injEq] at hj
          subst hj
          by_cases hd : dependenciesSatisfied s0 acc
          · simp [executePlanGo, hd]
          · rw [executePlanGo, if_neg hd]
            simp only [Nat.add_zero, List.take_zero, List.append_nil]
            constructor
            · intro hmem
              have := executePlanGo_exec_ge f rest (acc ++ [depFailResult s0])
                (i + 1) _ hmem
              omega
            · intro hc
              exact absurd hc hd
      | j + 1 =>
          simp only [List.getElem?_cons_succ] at hj
          by_cases hd : dependenciesSatisfied s0 acc
          · have hIH := ih (acc ++ [resultForOutcome s0 (f s0)]) (i + 1) j s hj
            rw [← List.append_cons] at hIH
            rw [executePlanGo, if_pos hd]
            simp only [List.mem_cons, List.take_succ_cons]
            rw [or_iff_right (by omega : ¬ i + (j + 1) = i),
              show i + (j + 1) = (i + 1) + j from by omega]
            exact hIH
          · have hIH := ih (acc ++ [depFailResult s0]) (i + 1) j s hj
            rw [← List.append_cons] at hIH
            rw [executePlanGo, if_neg hd]
            simp only [List.take_succ_cons]
            rw [show i + (j + 1) = (i + 1) + j from by omega]
            exact hIH

/-! ## Claim C2: one StepResult per Step, dependency gating -/

/-- Claim C2 (counterexample): in the two-step plan whose every executed
step raises, the second step's dependency on step_1 has no completed
StepResult, and the recorded failure message is Dependencies not satisfied
with a capital D — not the lowercase string the claim quotes. -/
theorem scheduler_depmsg_counterexample :
    ((executePlan c2Run c2Plan).1)[1]?
      = some { step_id := "step_2", status := ExecutionStatus.failed,
               output := none,
               error_message := some "Dependencies not satisfied" }
    ∧ (∀ r ∈ (executePlan c2Run c2Plan).1,
        ¬(r.step_id = "step_1" ∧ r.status = ExecutionStatus.completed))
    ∧ (c2Plan.steps[1]?).map (·.dependencies) = some ["step_1"]
    ∧ ¬(((executePlan c2Run c2Plan).1)[1]?.map (·.error_message)
          = some (some "dependencies not satisfied")) := by
  refine ⟨rfl, ?_, rfl, by decide⟩
  decide

/-- Claim C2 (amended): in each execution attempt the scheduler produces
exactly one StepResult per Step, in the Plan's listed order; a Step one of
whose dependency identifiers has no completed StepResult in the attempt is
recorded as failed with message Dependencies not satisfied (capital D)
without its execution oracle being invoked; and whether a step is executed
depends only on its own dependency check against the results so far, so
later steps still run after earlier failures. -/
theorem scheduler_one_result_per_step (f : PlanStep → StepOutcome)
    (plan : AgentPlan) :
    ((executePlan f plan).1).map (·.step_id) = plan.steps.map (·.id)
    ∧ (∀ j s, plan.steps[j]? = some s →
        (∃ d ∈ s.dependencies, ∀ r ∈ (executePlan f plan).1,
            ¬(r.step_id = d ∧ r.status = ExecutionStatus.completed)) →
        (executePlan f plan).1[j]? = some (depFailResult s)
          ∧ j ∉ (executePlan f plan).2)
    ∧ (∀ j s, plan.steps[j]? = some s →
        (j ∈ (executePlan f plan).2
          ↔ dependenciesSatisfied s (((executePlan f plan).1).take j)
              = true)) := by
  refine ⟨executePlanGo_map f plan.steps [] 0, ?_, ?_⟩
  · intro j s hj hdep
    have hfalse : dependenciesSatisfied s (((executePlan f plan).1).take j)
        = false := by
      obtain ⟨d, hdm, hnone⟩ := hdep
      apply Bool.eq_false_iff.mpr
      intro htrue
      rw [dependenciesSatisfied] at htrue
      by_cases hemp : s.dependencies.isEmpty
      · have hnil : s.dependencies = [] := by
          cases hd : s.dependencies with
          | nil => rfl
          | cons a l => rw [hd] at hemp; simp [List.isEmpty] at hemp
        rw [hnil] at hdm
        cases hdm
      · rw [if_neg hemp] at htrue
        rw [List.all_eq_true] at htrue
        have hany := htrue d hdm
        rw [List.any_eq_true] at hany
        obtain ⟨r, hrm, hr⟩ := hany
        simp only [decide_eq_true_eq] at hr
        exact hnone r (List.take_subset _ _ hrm) hr
    have hget := executePlanGo_getElem f plan.steps [] 0 j s hj
    have hmem := executePlanGo_exec_mem f plan.steps [] 0 j s hj
    simp only [List.nil_append, Nat.zero_add] at hget hmem
    constructor
    · rw [show (executePlan f plan).1[j]?
          = (executePlanGo f plan.steps [] 0).1[j]? from rfl, hget]
      rw [show ((executePlan f plan).1).take j
          = ((executePlanGo f plan.steps [] 0).1).take j from rfl] at hfalse
      simp [stepEval, hfalse]
    · intro hj_mem
      have := hmem.mp hj_mem
      rw [show ((executePlan f plan).1).take j
          = ((executePlanGo f plan.steps [] 0).1).take j from rfl] at hfalse
      rw [this] at hfalse
      cases hfalse
  · intro j s hj
    have hmem := executePlanGo_exec_mem f plan.steps [] 0 j s hj
    simpa using hmem

/-- Claim C2 (witness): the amended behaviour on the two-step plan where
step_1 raises: one result per step in order, the dependent step recorded as
the dependency failure and never executed. -/
theorem scheduler_one_result_per_step_witness :
    ((executePlan c2Run c2Plan).1).map (·.step_id) = ["step_1", "step_2"]
    ∧ ((executePlan c2Run c2Plan).1)[1]? = some (depFailResult c2Step2)
    ∧ 1 ∉ (executePlan c2Run c2Plan).2 := by
  obtain ⟨h1, h2, _⟩ := scheduler_one_result_per_step c2Run c2Plan
  obtain ⟨ha, hb⟩ := h2 1 c2Step2 (by decide) (by decide)
  exact ⟨h1, ha, hb⟩

/-! ## Claims C3 and C10: the verification phase -/

/-- Claim C3: when some StepResult of the attempt is not completed,
verification short-circuits to should_replan true and task_complete false,
makes no inference call, and its reasoning lists the failed step
identifiers. -/
theorem verify_shortcircuit (llm : String → String) (task : String)
    (plan : AgentPlan) (results : List StepResult)
    (h : ∃ r ∈ results, r.status ≠ ExecutionStatus.completed) :
    (verifyExecution llm task plan results).1.should_replan = true
    ∧ (verifyExecution llm task plan results).1.task_complete = false
    ∧ (verifyExecution llm task plan results).2 = 0
    ∧ (verifyExecution llm task plan results).1.reasoning
        = "Steps failed: " ++ String.intercalate ", "
            ((results.filter
              (fun r => r.status = ExecutionStatus.failed)).map (·.step_id)) := by
  have hall : results.all (fun r => r.status = ExecutionStatus.completed)
      = false := by
    obtain ⟨r, hrm, hr⟩ := h
    apply Bool.eq_false_iff.mpr
    intro htrue
    rw [List.all_eq_true] at htrue
    have := htrue r hrm
    simp only [decide_eq_true_eq] at this
    exact hr this
  rw [verifyExecution, if_neg (by simp [hall])]
  exact ⟨rfl, rfl, rfl, rfl⟩

/-- Claim C3 (witness): the short-circuit evaluated on an attempt whose
second step failed. -/
theorem verify_shortcircuit_witness :
    (verifyExecution noLlm "demo" c2Plan c3Results).1.should_replan = true
    ∧ (verifyExecution noLlm "demo" c2Plan c3Results).1.task_complete = false
    ∧ (verifyExecution noLlm "demo" c2Plan c3Results).2 = 0
    ∧ (verifyExecution noLlm "demo" c2Plan c3Results).1.reasoning
        = "Steps failed: step_2" := by
  obtain ⟨h1, h2, h3, h4⟩ :=
    verify_shortcircuit noLlm "demo" c2Plan c3Results (by decide)
  refine ⟨h1, h2, h3, ?_⟩
  rw [h4]
  rfl

/-- Claim C10: every Verification the verification phase produces satisfies
should_replan equal to the negation of task_complete: the failed-steps
branch returns false/true and the inference branch negates the classified
completion. -/
theorem verify_replan_negates_complete (llm : String → String) (task : String)
    (plan : AgentPlan) (results : List StepResult) :
    (verifyExecution llm task plan results).1.should_replan
      = !(verifyExecution llm task plan results).1.task_complete := by
  rw [verifyExecution]
  by_cases h : results.all (fun r => r.status = ExecutionStatus.completed)
  · rw [if_pos h]
  · rw [if_neg h]
    rfl

/-! ## Claim C1: the replan budget -/

theorem execLoopGo_replan_le (runStep : PlanStep → StepOutcome)
    (llm : String → String) (task : String) (maxReplan : Nat) :
    ∀ (fuel : Nat) (plan : AgentPlan) (r : Nat) (acc : List StepResult)
      (cycles : Nat) (verifs : List Verification), r ≤ maxReplan →
    (execLoopGo runStep llm task maxReplan fuel plan r acc cycles
      verifs).replan_count ≤ maxReplan := by
  intro fuel
  induction fuel with
  | zero => intro plan r acc cycles verifs hr; exact hr
  | succ fuel ih =>
      intro plan r acc cycles verifs hr
      rw [execLoopGo, if_pos hr]
      by_cases h1 : (verifyExecution llm task plan
          (executePlan runStep plan).1).1.task_complete
      · rw [if_pos h1]
        exact hr
      · rw [if_neg h1]
        by_cases h2 : (verifyExecution llm task plan
            (executePlan runStep plan).1).1.should_replan = true ∧ r < maxReplan
        · rw [if_pos h2]
          exact ih _ _ _ _ _ (by omega)
        · rw [if_neg h2]
          exact hr

theorem execLoopGo_always_fail (runStep : PlanStep → StepOutcome)
    (llm : String → String) (task : String) (maxReplan : Nat)
    (H : ∀ plan : AgentPlan,
      (verifyExecution llm task plan
        (executePlan runStep plan).1).1.task_complete = false
      ∧ (verifyExecution llm task plan
          (executePlan runStep plan).1).1.should_replan = true) :
    ∀ (fuel r : Nat), maxReplan + 1 - r ≤ fuel → r ≤ maxReplan →
    ∀ (plan : AgentPlan) (acc : List StepResult) (cycles : Nat)
      (verifs : List Verification),
    (execLoopGo runStep llm task maxReplan fuel plan r acc cycles
      verifs).status = ExecutionStatus.failed
    ∧ (execLoopGo runStep llm task maxReplan fuel plan r acc cycles
        verifs).cycles = cycles + (maxReplan + 1 - r)
    ∧ (execLoopGo runStep llm task maxReplan fuel plan r acc cycles
        verifs).replan_count = maxReplan
    ∧ ∃ v, (execLoopGo runStep llm task maxReplan fuel plan r acc cycles
          verifs).verifications.getLast? = some v
        ∧ (execLoopGo runStep llm task maxReplan fuel plan r acc cycles
            verifs).error_message = some v.reasoning := by
  intro fuel
  induction fuel with
  | zero => intro r hfuel hr; omega
  | succ fuel ih =>
      intro r hfuel hr plan acc cycles verifs
      rw [execLoopGo, if_pos hr, if_neg (by simp [(H plan).1])]
      by_cases hlt : r < maxReplan
      · rw [if_pos ⟨(H plan).2, hlt⟩]
        have hrec := ih (r + 1) (by omega) (by omega)
          (replanPlan task plan (executePlan runStep plan).1
            (verifyExecution llm task plan (executePlan runStep plan).1).1)
          (acc ++ (executePlan runStep plan).1) (cycles + 1)
          (verifs ++ [(verifyExecution llm task plan
            (executePlan runStep plan).1).1])
        refine ⟨hrec.1, ?_, hrec.2.2.1, hrec.2.2.2⟩
        rw [hrec.2.1]
        omega
      · rw [if_neg (fun hc => hlt hc.2)]
        refine ⟨rfl, ?_, ?_, ?_⟩
        · show cycles + 1 = cycles + (maxReplan + 1 - r)
          omega
        · show r = maxReplan
          omega
        · exact ⟨_, List.getLast?_concat _, rfl⟩

/-- Claim C1: replan_count never exceeds max_replan_attempts for any task
execution, and when every verification reports task_complete false with
should_replan true the loop ends FAILED after exactly
max_replan_attempts + 1 execute/verify cycles with the last verification's
reasoning as the error message. -/
theorem replan_budget_bound :
    (∀ (reg : ToolRegistry) (runStep : PlanStep → StepOutcome)
        (llm : String → String) (task : String) (maxReplan : Nat),
      (executeTask reg runStep llm task maxReplan).replan_count ≤ maxReplan)
    ∧ (∀ (reg : ToolRegistry) (runStep : PlanStep → StepOutcome)
        (llm : String → String) (task : String) (maxReplan : Nat),
      (∀ plan : AgentPlan,
        (verifyExecution llm task plan
          (executePlan runStep plan).1).1.task_complete = false
        ∧ (verifyExecution llm task plan
            (executePlan runStep plan).1).1.should_replan = true) →
      (executeTask reg runStep llm task maxReplan).status
          = ExecutionStatus.failed
      ∧ (executeTask reg runStep llm task maxReplan).cycles = maxReplan + 1
      ∧ (executeTask reg runStep llm task maxReplan).replan_count = maxReplan
      ∧ ∃ v, (executeTask reg runStep llm task
            maxReplan).verifications.getLast? = some v
          ∧ (executeTask reg runStep llm task maxReplan).error_message
              = some v.reasoning) := by
  constructor
  · intro reg runStep llm task maxReplan
    exact execLoopGo_replan_le runStep llm task maxReplan (maxReplan + 1)
      (createPlan reg task) 0 [] 0 [] (Nat.zero_le _)
  · intro reg runStep llm task maxReplan H
    have hrun := execLoopGo_always_fail runStep llm task maxReplan H
      (maxReplan + 1) 0 (by omega) (Nat.zero_le _)
      (createPlan reg task) [] 0 []
    refine ⟨hrun.1, ?_, hrun.2.2.1, hrun.2.2.2⟩
    have h2 := hrun.2.1
    show (execLoopGo runStep llm task maxReplan (maxReplan + 1)
      (createPlan reg task) 0 [] 0 []).cycles = maxReplan + 1
    omega

/-- Claim C1 (witness): with the never-yes inference stub and an oracle that
completes every step, the loop at budget 2 fails after exactly 3 cycles with
replan counter 2. -/
theorem replan_budget_bound_witness :
    (executeTask emptyRegistry okRun noLlm "demo" 2).status
        = ExecutionStatus.failed
    ∧ (executeTask emptyRegistry okRun noLlm "demo" 2).cycles = 3
    ∧ (executeTask emptyRegistry okRun noLlm "demo" 2).replan_count = 2
    ∧ ∃ v, (executeTask emptyRegistry okRun noLlm
          "demo" 2).verifications.getLast? = some v
        ∧ (executeTask emptyRegistry okRun noLlm "demo" 2).error_message
            = some v.reasoning := by
  have H : ∀ plan : AgentPlan,
      (verifyExecution noLlm "demo" plan
        (executePlan okRun plan).1).1.task_complete = false
      ∧ (verifyExecution noLlm "demo" plan
          (executePlan okRun plan).1).1.should_replan = true := by
    intro plan
    rw [verifyExecution]
    by_cases h : ((executePlan okRun plan).1).all
        (fun r => r.status = ExecutionStatus.completed)
    · rw [if_pos h]
      exact ⟨rfl, rfl⟩
    · rw [if_neg h]
      exact ⟨rfl, rfl⟩
  exact replan_budget_bound.2 emptyRegistry okRun noLlm "demo" 2 H

/-! ## Claim C8: coordinated research-then-coding decomposition -/

/-- Claim C8: for a task matching the research and coding keyword lists but
no testing keyword, decomposition yields exactly the research and coding
assignments in that order, the coding one depending on the research one, and
the readiness loop dispatches (and completes) research before coding. -/
theorem coordination_research_before_coding (task : String)
    (hc : taskMatches task codingKeywords = true)
    (hr : taskMatches task researchKeywords = true)
    (ht : taskMatches task testingKeywords = false) :
    requiredAgentsFor task = [AgentType.coding, AgentType.research]
    ∧ (decomposeTask task (requiredAgentsFor task)).map (·.task_id)
        = ["research_001", "coding_001"]
    ∧ (decomposeTask task (requiredAgentsFor task)).map (·.agent_type)
        = [AgentType.research, AgentType.coding]
    ∧ (decomposeTask task (requiredAgentsFor task)).map (·.dependencies)
        = [[], ["research_001"]]
    ∧ coordinationOrder (decomposeTask task (requiredAgentsFor task))
        = some ["research_001", "coding_001"] := by
  have hreq : requiredAgentsFor task = [AgentType.coding, AgentType.research] := by
    simp [requiredAgentsFor, agentKeywords, List.filter_cons, hc, hr, ht]
  refine ⟨hreq, ?_, ?_, ?_, ?_⟩ <;> rw [hreq] <;> rfl

/-- Claim C8 (witness): the decomposition and dispatch order on a concrete
task mentioning research and code but nothing testing-related. -/
theorem coordination_research_before_coding_witness :
    requiredAgentsFor "research and code it"
        = [AgentType.coding, AgentType.research]
    ∧ coordinationOrder (decomposeTask "research and code it"
        (requiredAgentsFor "research and code it"))
        = some ["research_001", "coding_001"] := by
  obtain ⟨h1, _, _, _, h5⟩ := coordination_research_before_coding
    "research and code it" (by decide) (by decide) (by decide)
  exact ⟨h1, h5⟩

/-! ## Claim C6: initialization gating of the dispatcher -/

/-- Claim C6 (counterexample): on a server that was never initialized,
resources/list and ping are served successfully instead of being rejected
with code -32002. -/
theorem preinit_counterexample :
    srvFresh.initialized = false
    ∧ (handleMessage srvFresh msgResourcesList).2.error = none
    ∧ (handleMessage srvFresh msgResourcesList).2.result
        = some (MCPResultPayload.resources mcpResources)
    ∧ (handleMessage srvFresh msgPing).2.error = none
    ∧ (handleMessage srvFresh msgPing).2.result = some MCPResultPayload.pong :=
  ⟨rfl, rfl, rfl, rfl, rfl⟩

/-- Claim C6 (amended): before a successful initialize, only tools/list and
tools/call are rejected with the -32002 not-initialized error; resources/list
and ping are served normally without any initialization check. -/
theorem preinit_rejections (srv : MCPServerState) (msg : MCPRequest)
    (hinit : srv.initialized = false) :
    (msg.method = some "tools/list" →
      (handleMessage srv msg).2.error
        = some { code := -32002, message := "Server not initialized" })
    ∧ (msg.method = some "tools/call" →
      (handleMessage srv msg).2.error
        = some { code := -32002, message := "Server not initialized" })
    ∧ (msg.method = some "resources/list" →
      (handleMessage srv msg).2.error = none
      ∧ (handleMessage srv msg).2.result
          = some (MCPResultPayload.resources mcpResources))
    ∧ (msg.method = some "ping" →
      (handleMessage srv msg).2.error = none
      ∧ (handleMessage srv msg).2.result = some MCPResultPayload.pong) := by
  refine ⟨?_, ?_, ?_, ?_⟩ <;> intro hm <;>
    simp [handleMessage, hm, handleToolsList, handleToolsCall,
      handleResourcesList, hinit, errorResponse, successResponse]

/-- Claim C6 (witness): the rejection of tools/list and tools/call on a
fresh server. -/
theorem preinit_rejections_witness :
    (handleMessage srvFresh msgToolsList).2.error
      = some { code := -32002, message := "Server not initialized" }
    ∧ (handleMessage srvFresh msgToolsCallBare).2.error
      = some { code := -32002, message := "Server not initialized" } := by
  have h1 := (preinit_rejections srvFresh msgToolsList rfl).1 rfl
  have h2 := (preinit_rejections srvFresh msgToolsCallBare rfl).2.1 rfl
  exact ⟨h1, h2⟩

/-! ## Claim C7: tools/call behaviour -/

/-- Claim C7 (counterexample): the tools/call handler executes the resolved
tool even though that tool's validate_parameters rejects the arguments — no
validation step exists, refuting the claim that parameters are validated
before execution. -/
theorem tools_call_novalidate_counterexample :
    tNoVal.validate_parameters [("x", "1")] = false
    ∧ (handleMessage srvNoVal msgCallNv).2.error = none
    ∧ (handleMessage srvNoVal msgCallNv).2.result
        = some (MCPResultPayload.callResult "ran" false) :=
  ⟨rfl, rfl, rfl⟩

/-- Claim C7 (amended): on an initialized server, tools/call resolves the
named provider through the registry and executes it directly, never calling
validate_parameters: an unknown tool name yields protocol error -32602 (no
content envelope), and a known tool's outcome is always a success envelope
whose isError flag records whether execution raised. -/
theorem tools_call_behaviour (srv : MCPServerState) (msg : MCPRequest)
    (p : MCPParams) (n : String)
    (hinit : srv.initialized = true)
    (hm : msg.method = some "tools/call")
    (hp : msg.params = some p)
    (hn : p.name = some n)
    (hne : n ≠ "") :
    (getTool srv.tool_registry n = none →
      (handleMessage srv msg).2.error
        = some { code := -32602, message := "Tool not found: " ++ n }
      ∧ (handleMessage srv msg).2.result = none)
    ∧ (∀ tool, getTool srv.tool_registry n = some tool →
        (∀ v, tool.execute p.arguments = .ok v →
          (handleMessage srv msg).2.error = none
          ∧ (handleMessage srv msg).2.result
              = some (MCPResultPayload.callResult v false))
        ∧ (∀ e, tool.execute p.arguments = .error e →
          (handleMessage srv msg).2.error = none
          ∧ (handleMessage srv msg).2.result
              = some (MCPResultPayload.callResult e true))) := by
  have hmsg : handleMessage srv msg = (srv, handleToolsCall srv msg) := by
    simp [handleMessage, hm]
  constructor
  · intro hget
    rw [hmsg]
    simp [handleToolsCall, hinit, hp, hn, hne, hget, errorResponse]
  · intro tool hget
    constructor
    · intro v hv
      rw [hmsg]
      simp [handleToolsCall, hinit, hp, hn, hne, hget, hv, successResponse]
    · intro e he
      rw [hmsg]
      simp [handleToolsCall, hinit, hp, hn, hne, hget, he, successResponse]

/-- Claim C7 (witness): the unknown-tool protocol error and the executed
envelope on the initialized server holding tNoVal. -/
theorem tools_call_behaviour_witness :
    (handleMessage srvNoVal msgCallMissing).2.error
      = some { code := -32602, message := "Tool not found: missing" }
    ∧ (handleMessage srvNoVal msgCallNv2).2.result
        = some (MCPResultPayload.callResult "ran" false) := by
  have h1 := ((tools_call_behaviour srvNoVal msgCallMissing missingParams
    "missing" rfl rfl rfl rfl (by decide)).1 rfl).1
  have h2 := (((tools_call_behaviour srvNoVal msgCallNv2 nvParams2
    "nv" rfl rfl rfl rfl (by decide)).2 tNoVal rfl).1 "ran" rfl).2
  exact ⟨h1, h2⟩

/-! ## Claim C9: the base validator accepts everything -/

/-- Claim C9: the base class validate_parameters returns true on every
parameter dictionary, so a provider inheriting it never rejects parameters
and the per-step tool loop can never fail with a parameter-validation error
for such providers. -/
theorem base_validate_always_true :
    (∀ params : ParamDict, baseValidateParameters params = true)
    ∧ (∀ (t : Tool) (params : ParamDict),
        t.validate_parameters = baseValidateParameters →
        t.validate_parameters params = true)
    ∧ (∀ (reg : ToolRegistry) (params : ParamDict) (names : List String),
        (∀ nm tool, getTool reg nm = some tool →
          tool.validate_parameters = baseValidateParameters) →
        ∀ nm, executeStepTools reg params names
          ≠ .error (StepToolError.invalidParameters nm)) := by
  refine ⟨fun _ => rfl, fun t params h => by rw [h]; rfl, ?_⟩
  intro reg params names H nm
  induction names with
  | nil => simp [executeStepTools]
  | cons name rest ih =>
      cases hget : getTool reg name with
      | none => simp [executeStepTools, hget]
      | some tool =>
          rw [show executeStepTools reg params (name :: rest)
              = (if tool.validate_parameters params = true then
                  match tool.execute params with
                  | .error e => .error (StepToolError.execError e)
                  | .ok out =>
                      match executeStepTools reg params rest with
                      | .error e => .error e
                      | .ok outs => .ok ((name, out) :: outs)
                 else .error (StepToolError.invalidParameters name))
              from by rw [executeStepTools, hget]]
          rw [H name tool hget,
            if_pos (show baseValidateParameters params = true from rfl)]
          cases hex : tool.execute params with
          | error e => simp
          | ok out =>
              cases hrec : executeStepTools reg params rest with
              | error e => exact fun hc => ih (hrec.trans hc)
              | ok outs => simp

/-- Claim C9 (witness): the base validator and the validation-failure-free
tool loop at a concrete registry and parameter dictionary. -/
theorem base_validate_always_true_witness :
    baseTool.validate_parameters [("k", "v")] = true
    ∧ executeStepTools regBase [("k", "v")] ["b"]
        ≠ .error (StepToolError.invalidParameters "b") := by
  constructor
  · exact base_validate_always_true.2.1 baseTool [("k", "v")] rfl
  · refine base_validate_always_true.2.2 regBase [("k", "v")] ["b"] ?_ "b"
    intro nm tool h
    rw [show getTool regBase nm
      = (if ("b" : String) = nm then some baseTool else none) from rfl] at h
    split at h
    · injection h with h2
      rw [← h2]
      rfl
    · exact absurd h (by simp)


/-- Claim C4 (witness): the amended behaviour at a concrete registration. -/
theorem register_never_fails_overwrites_witness :
    getTool (registerTool emptyRegistry tDup1) "t" = some tDup1
    ∧ (∃ l, dictGet (registerTool emptyRegistry tDup1).capability_index "cap"
        = some l ∧ "t" ∈ l) := by
  obtain ⟨h1, h2, _⟩ := register_never_fails_overwrites emptyRegistry tDup1
  exact ⟨h1, h2 "cap" (by decide)⟩

